import Mathlib

/-
Verification development for the action-extraction, safety-classification and
execution-orchestration engine of `aeon_fix.py`.

The Python source is shallowly embedded: text is `List Char`, Python dicts
become structures, external effects (user confirmations, the OS process
launcher, the decision engine) become explicit oracle parameters, and
uncaught Python exceptions become `Option.none` results.  String functions
(`lower`, `strip`, `split`) are modelled on the ASCII range; the Python
versions additionally fold exotic Unicode characters, which none of the
configured patterns contain.
-/

namespace AeonFix

/-- Text of the embedded program: a Python `str` as a list of characters. -/
abbrev Text := List Char

/-- Python `\s` / `str.strip` whitespace on the ASCII range:
space, tab, newline, carriage return, vertical tab, form feed. -/
def pyIsSpace (c : Char) : Bool :=
  c = ' ' || c = '\t' || c = '\n' || c = '\r' || c = '\x0b' || c = '\x0c'

/-- Python `str.lower`, modelled on the ASCII range. -/
def lowerText (t : Text) : Text := t.map Char.toLower

/-- Python `str.strip()` with no argument: drop whitespace from both ends. -/
def stripText (t : Text) : Text :=
  ((t.dropWhile pyIsSpace).reverse.dropWhile pyIsSpace).reverse

/-- Helper for `pySplitWs`: accumulates the current token (reversed). -/
def splitWsAux : Text → Text → List Text
  | [], cur => if cur = [] then [] else [cur.reverse]
  | c :: cs, cur =>
    if pyIsSpace c then
      if cur = [] then splitWsAux cs [] else cur.reverse :: splitWsAux cs []
    else splitWsAux cs (c :: cur)

/-- Python `str.split()` with no argument: split on whitespace runs,
dropping empty pieces. -/
def pySplitWs (t : Text) : List Text := splitWsAux t []

/-- All suffixes of a list, longest first (including the empty suffix). -/
def sufList : Text → List Text
  | [] => [[]]
  | c :: cs => (c :: cs) :: sufList cs

/-- Python `needle in hay` on strings: substring containment. -/
def containsSub (needle hay : Text) : Bool :=
  (sufList hay).any (fun t => needle.isPrefixOf t)

/-!  Configuration (the `CONFIG` dictionary, aeon_fix.py lines 36-49). -/

/-- `CONFIG["dangerous_commands"]` (lines 40-43).  The fork-bomb fragment's
braces are written with `\x7b`/`\x7d` escapes. -/
def dangerous_commands : List String :=
  ["rm -rf", "deltree", "format", "dd if=", "mkfs",
   "del /", "rd /s", "rmdir /s", ":()\x7b:|:&\x7d;:"]

/-- `CONFIG["safe_diagnostic_commands"]` (lines 44-48). -/
def safe_diagnostic_commands : List String :=
  ["wmic", "systeminfo", "ipconfig", "netstat", "tasklist",
   "sfc", "dism", "chkdsk", "dir", "powercfg", "msinfo32",
   "driverquery", "where", "regsvr32", "mdsched.exe"]

/-!  SafetyClassifier: `is_dangerous_command` (lines 834-860). -/

/-- Which return site of `is_dangerous_command` fires:
`denyHit` is the denylist return at line 843, `allowChkdskNoRepair` the
return at line 852, `allowOther` the return at line 854, and `defaultCase`
the final `return False` at line 860. -/
inductive DangerRule where
  | denyHit
  | allowChkdskNoRepair
  | allowOther
  | defaultCase
deriving DecidableEq

/-- Control-flow model of `is_dangerous_command` (lines 834-860), recording
which return site fires.  `none` models the uncaught `IndexError` raised by
`cmd_lower.split()[0]` when the command has no whitespace-delimited token. -/
def is_dangerous_classify (cmd : String) : Option DangerRule :=
  let cl := lowerText cmd.data
  if dangerous_commands.any (fun d => containsSub d.data cl) then
    some DangerRule.denyHit
  else
    match (pySplitWs cl).head? with
    | none => none
    | some w =>
      if safe_diagnostic_commands.any (fun t => t.data = w) then
        if w = "chkdsk".data ∧ containsSub "/f".data cl = false ∧
            containsSub "/r".data cl = false then
          some DangerRule.allowChkdskNoRepair
        else if w ≠ "chkdsk".data then
          some DangerRule.allowOther
        else
          some DangerRule.defaultCase
      else
        some DangerRule.defaultCase

/-- Boolean view of `is_dangerous_command`: only the denylist return site
yields `True`; every other return site yields `False`. -/
def is_dangerous_command (cmd : String) : Option Bool :=
  (is_dangerous_classify cmd).map
    (fun r => match r with | DangerRule.denyHit => true | _ => false)

end AeonFix

namespace AeonFix

/-- C5: is_dangerous_command returns true for every command string that
contains, case-insensitively, any fragment of the fixed denylist, regardless
of the first token or surrounding context. -/
theorem dangerous_fragment_always_dangerous (cmd frag : String)
    (hmem : frag ∈ dangerous_commands)
    (hsub : containsSub frag.data (lowerText cmd.data) = true) :
    is_dangerous_command cmd = some true := by
  have hany : dangerous_commands.any
      (fun d => containsSub d.data (lowerText cmd.data)) = true :=
    List.any_eq_true.mpr ⟨frag, hmem, hsub⟩
  simp only [is_dangerous_command, is_dangerous_classify, hany, if_true]
  rfl

/-- Witness for C5: a command whose first token (`sfc`) is on the safe
allowlist but whose text contains the denylisted fragment `rm -rf` is
classified dangerous. -/
theorem dangerous_fragment_always_dangerous_witness :
    is_dangerous_command "sfc /scannow && rm -rf C:\\Windows" = some true :=
  dangerous_fragment_always_dangerous "sfc /scannow && rm -rf C:\\Windows"
    "rm -rf" (by decide) (by decide)

/-- C6: with no denylist hit and first token `chkdsk`, the classifier
returns not-dangerous via the allowlist when neither repair flag `/f` nor
`/r` occurs in the text; when a repair flag is present the command is not
treated as allowlisted-safe but falls through to the default return site
(which is also not-dangerous). -/
theorem chkdsk_repair_flag_classification (cmd : String)
    (hnodeny : dangerous_commands.any
      (fun d => containsSub d.data (lowerText cmd.data)) = false)
    (hfirst : (pySplitWs (lowerText cmd.data)).head? = some "chkdsk".data) :
    ((containsSub "/f".data (lowerText cmd.data) = false ∧
      containsSub "/r".data (lowerText cmd.data) = false) →
        is_dangerous_classify cmd = some DangerRule.allowChkdskNoRepair ∧
        is_dangerous_command cmd = some false) ∧
    ((containsSub "/f".data (lowerText cmd.data) = true ∨
      containsSub "/r".data (lowerText cmd.data) = true) →
        is_dangerous_classify cmd = some DangerRule.defaultCase ∧
        is_dangerous_command cmd = some false) := by
  have hsafe : safe_diagnostic_commands.any
      (fun t => t.data = "chkdsk".data) = true := by decide
  constructor
  · intro ⟨hf, hr⟩
    have hcls : is_dangerous_classify cmd = some DangerRule.allowChkdskNoRepair := by
      simp only [is_dangerous_classify, hnodeny, Bool.false_eq_true, if_false,
        hfirst, hsafe, if_true, hf, hr]
      simp
    exact ⟨hcls, by simp only [is_dangerous_command, hcls, Option.map_some']⟩
  · intro hfr
    have hcls : is_dangerous_classify cmd = some DangerRule.defaultCase := by
      simp only [is_dangerous_classify, hnodeny, Bool.false_eq_true, if_false,
        hfirst, hsafe, if_true]
      rcases hfr with h | h <;> simp [h]
    exact ⟨hcls, by simp only [is_dangerous_command, hcls, Option.map_some']⟩

/-- Witness for C6: `chkdsk C:` is allowlisted-safe, while `chkdsk /f`
falls through to the default (still not-dangerous) return site. -/
theorem chkdsk_repair_flag_classification_witness :
    (is_dangerous_classify "chkdsk C:" = some DangerRule.allowChkdskNoRepair ∧
      is_dangerous_command "chkdsk C:" = some false) ∧
    (is_dangerous_classify "chkdsk /f" = some DangerRule.defaultCase ∧
      is_dangerous_command "chkdsk /f" = some false) :=
  ⟨(chkdsk_repair_flag_classification "chkdsk C:" (by decide) (by decide)).1
      (by decide),
   (chkdsk_repair_flag_classification "chkdsk /f" (by decide) (by decide)).2
      (Or.inl (by decide))⟩

end AeonFix

namespace AeonFix

/-!  Stable sorting.  Python `list.sort` / `sorted` are stable; they are
modelled by a stable insertion sort.  A stable sort is determined up to
extensional equality by the ordering, so the model reproduces CPython's
Timsort output exactly. -/

/-- Insert `x` into `l` after every element `y` with `le y x` (so, after
all elements that compare equal to `x`): the stable insertion. -/
def insLe {α : Type} (le : α → α → Bool) (x : α) : List α → List α
  | [] => [x]
  | y :: ys => if le y x then y :: insLe le x ys else x :: y :: ys

/-- Stable sort by the boolean ordering `le` (model of Python's stable
`sorted`/`list.sort`). -/
def pySortBy {α : Type} (le : α → α → Bool) (l : List α) : List α :=
  l.foldl (fun acc x => insLe le x acc) []

theorem mem_insLe {α : Type} (le : α → α → Bool) (x a : α) (l : List α) :
    a ∈ insLe le x l ↔ a = x ∨ a ∈ l := by
  induction l with
  | nil => simp [insLe]
  | cons y ys ih =>
    by_cases h : le y x = true <;> simp [insLe, h, ih] <;> tauto

theorem pairwise_insLe {α : Type} {le : α → α → Bool}
    (htrans : ∀ a b c, le a b = true → le b c = true → le a c = true)
    (htotal : ∀ a b, le a b = true ∨ le b a = true)
    (x : α) (l : List α) (hl : l.Pairwise (fun a b => le a b = true)) :
    (insLe le x l).Pairwise (fun a b => le a b = true) := by
  induction l with
  | nil => simp [insLe]
  | cons y ys ih =>
    rcases List.pairwise_cons.mp hl with ⟨hy, hys⟩
    by_cases h : le y x = true
    · rw [insLe, if_pos h]
      refine List.pairwise_cons.mpr ⟨?_, ih hys⟩
      intro z hz
      rcases (mem_insLe le x z ys).mp hz with hz | hz
      · exact hz ▸ h
      · exact hy z hz
    · rw [insLe, if_neg h]
      have hxy : le x y = true := by
        rcases htotal x y with h1 | h1
        · exact h1
        · exact absurd h1 h
      refine List.pairwise_cons.mpr ⟨?_, hl⟩
      intro z hz
      rcases List.mem_cons.mp hz with hz | hz
      · exact hz ▸ hxy
      · exact htrans x y z hxy (hy z hz)

theorem mem_foldl_insLe {α : Type} (le : α → α → Bool) (l : List α) :
    ∀ (acc : List α) (a : α),
      a ∈ l.foldl (fun acc x => insLe le x acc) acc ↔ a ∈ acc ∨ a ∈ l := by
  induction l with
  | nil => intro acc a; simp
  | cons x xs ih =>
    intro acc a
    simp only [List.foldl_cons, ih, mem_insLe, List.mem_cons]
    tauto

theorem mem_pySortBy {α : Type} (le : α → α → Bool) (l : List α) (a : α) :
    a ∈ pySortBy le l ↔ a ∈ l := by
  simp [pySortBy, mem_foldl_insLe]

theorem pairwise_foldl_insLe {α : Type} {le : α → α → Bool}
    (htrans : ∀ a b c, le a b = true → le b c = true → le a c = true)
    (htotal : ∀ a b, le a b = true ∨ le b a = true) (l : List α) :
    ∀ acc : List α, acc.Pairwise (fun a b => le a b = true) →
      (l.foldl (fun acc x => insLe le x acc) acc).Pairwise
        (fun a b => le a b = true) := by
  induction l with
  | nil => intro acc h; simpa using h
  | cons x xs ih =>
    intro acc h
    exact ih _ (pairwise_insLe htrans htotal x acc h)

theorem pairwise_pySortBy {α : Type} {le : α → α → Bool}
    (htrans : ∀ a b c, le a b = true → le b c = true → le a c = true)
    (htotal : ∀ a b, le a b = true ∨ le b a = true) (l : List α) :
    (pySortBy le l).Pairwise (fun a b => le a b = true) :=
  pairwise_foldl_insLe htrans htotal l [] (by simp)

theorem perm_insLe {α : Type} (le : α → α → Bool) (x : α) (l : List α) :
    (insLe le x l).Perm (x :: l) := by
  induction l with
  | nil => simp [insLe]
  | cons y ys ih =>
    by_cases h : le y x = true
    · rw [insLe, if_pos h]
      exact (ih.cons y).trans (List.Perm.swap x y ys)
    · rw [insLe, if_neg h]

theorem perm_pySortBy {α : Type} (le : α → α → Bool) (l : List α) :
    (pySortBy le l).Perm l := by
  suffices h : ∀ acc : List α,
      (l.foldl (fun acc x => insLe le x acc) acc).Perm (acc.reverse ++ l) by
    simpa using h []
  induction l with
  | nil => intro acc; simpa using acc.reverse_perm.symm
  | cons x xs ih =>
    intro acc
    refine (ih (insLe le x acc)).trans ?_
    have h1 : (insLe le x acc).reverse.Perm (x :: acc) :=
      (insLe le x acc).reverse_perm.trans (perm_insLe le x acc)
    refine (h1.append_right xs).trans ?_
    have h2 : (x :: (acc ++ xs)).Perm (acc ++ x :: xs) := List.perm_middle.symm
    have h3 : (x :: acc ++ xs).Perm (acc ++ x :: xs) := by simpa using h2
    exact h3.trans (acc.reverse_perm.symm.append_right _)

end AeonFix

namespace AeonFix

/-!  LogPatternAnalyzer: `find_time_clusters` (aeon_fix.py lines 750-806).
Timestamps are parsed with `datetime.strptime(ts, "%Y-%m-%d %H")`; the
parser below reproduces CPython's `_strptime` regex semantics for that
format (field alternatives tried in the regex's order, no end anchor,
then the "unconverted data remains" check, then `datetime()` validity). -/

/-- Hour-resolution datetime as produced by `strptime("%Y-%m-%d %H")`. -/
structure HourDT where
  y : Nat
  m : Nat
  d : Nat
  h : Nat
deriving DecidableEq

/-- Value of an ASCII digit. -/
def digitVal (c : Char) : Nat := c.toNat - '0'.toNat

def isDigitCh (c : Char) : Bool := '0' ≤ c && c ≤ '9'

/-- CPython `_strptime` field `%Y`: exactly four digits. -/
def pYear : Text → Option (Nat × Text)
  | a :: b :: c :: d :: r =>
    if isDigitCh a && isDigitCh b && isDigitCh c && isDigitCh d then
      some (((digitVal a * 10 + digitVal b) * 10 + digitVal c) * 10 + digitVal d, r)
    else none
  | _ => none

/-- CPython `_strptime` field `%m`, alternatives in regex order
`1[0-2] | 0[1-9] | [1-9]`; each candidate is paired with its rest. -/
def pMonth (t : Text) : List (Nat × Text) :=
  (match t with
   | a :: b :: r =>
     if a = '1' && ('0' ≤ b && b ≤ '2') then [(10 + digitVal b, r)] else []
   | _ => []) ++
  (match t with
   | a :: b :: r =>
     if a = '0' && ('1' ≤ b && b ≤ '9') then [(digitVal b, r)] else []
   | _ => []) ++
  (match t with
   | a :: r => if '1' ≤ a && a ≤ '9' then [(digitVal a, r)] else []
   | _ => [])

/-- CPython `_strptime` field `%d`, alternatives in regex order
`3[01] | [12][0-9] | 0[1-9] | [1-9]`. -/
def pDay (t : Text) : List (Nat × Text) :=
  (match t with
   | a :: b :: r =>
     if a = '3' && ('0' ≤ b && b ≤ '1') then [(30 + digitVal b, r)] else []
   | _ => []) ++
  (match t with
   | a :: b :: r =>
     if ('1' ≤ a && a ≤ '2') && isDigitCh b then
       [(digitVal a * 10 + digitVal b, r)] else []
   | _ => []) ++
  (match t with
   | a :: b :: r =>
     if a = '0' && ('1' ≤ b && b ≤ '9') then [(digitVal b, r)] else []
   | _ => []) ++
  (match t with
   | a :: r => if '1' ≤ a && a ≤ '9' then [(digitVal a, r)] else []
   | _ => [])

/-- CPython `_strptime` field `%H`, alternatives in regex order
`2[0-3] | [0-1][0-9] | [0-9]`. -/
def pHour (t : Text) : List (Nat × Text) :=
  (match t with
   | a :: b :: r =>
     if a = '2' && ('0' ≤ b && b ≤ '3') then [(20 + digitVal b, r)] else []
   | _ => []) ++
  (match t with
   | a :: b :: r =>
     if ('0' ≤ a && a ≤ '1') && isDigitCh b then
       [(digitVal a * 10 + digitVal b, r)] else []
   | _ => []) ++
  (match t with
   | a :: r => if isDigitCh a then [(digitVal a, r)] else []
   | _ => [])

/-- All parses of `"%Y-%m-%d %H"` against a prefix of `t`, in the regex
engine's backtracking order; the engine's chosen match is the head. -/
def parseYmdH_matches (t : Text) : List (HourDT × Text) :=
  match pYear t with
  | none => []
  | some (y, r1) =>
    match r1 with
    | '-' :: r2 =>
      (pMonth r2).flatMap fun mr =>
        match mr.2 with
        | '-' :: r4 =>
          (pDay r4).flatMap fun dr =>
            match dr.2 with
            | ' ' :: r6 => (pHour r6).map fun hr => (⟨y, mr.1, dr.1, hr.1⟩, hr.2)
            | _ => []
        | _ => []
    | _ => []

/-- Days in a month, Gregorian calendar (as `calendar`/`datetime` use). -/
def daysInMonth (y m : Nat) : Nat :=
  if m = 2 then
    if y % 4 = 0 && (y % 100 ≠ 0 || y % 400 = 0) then 29 else 28
  else if m = 4 || m = 6 || m = 9 || m = 11 then 30
  else 31

/-- Model of `datetime.datetime.strptime(s, "%Y-%m-%d %H")`: the regex's
first match must consume the whole string ("unconverted data remains"),
and the `datetime` constructor must accept the fields (`MINYEAR = 1`,
day within the month). `none` models the raised `ValueError`. -/
def strptimeYmdH (s : Text) : Option HourDT :=
  match (parseYmdH_matches s).head? with
  | none => none
  | some (dt, rest) =>
    if rest ≠ [] then none
    else if 1 ≤ dt.y ∧ dt.d ≤ daysInMonth dt.y dt.m then some dt
    else none

/-- Days from 0000-03-01 of the civil date `(y, m, d)` (standard
days-from-civil computation); used to order datetimes and to measure
`timedelta` differences at hour resolution. -/
def daysFromCivil (y m d : Nat) : Nat :=
  let yAdj := if m ≤ 2 then y - 1 else y
  let era := yAdj / 400
  let yoe := yAdj - era * 400
  let mp := if 3 ≤ m then m - 3 else m + 9
  let doy := (153 * mp + 2) / 5 + d - 1
  let doe := yoe * 365 + yoe / 4 - yoe / 100 + doy
  era * 146097 + doe

/-- Hours on the absolute time line; `datetime` comparison and subtraction
at hour resolution are comparison and subtraction of this value. -/
def dtHours (t : HourDT) : Nat := daysFromCivil t.y t.m t.d * 24 + t.h

/-- Decimal digits of `n`, left-padded with zeros to width `w`
(model of `strftime`'s zero-padded numeric fields). -/
def padDigits (w n : Nat) : Text :=
  let ds := Nat.toDigits 10 n
  List.replicate (w - ds.length) '0' ++ ds

/-- `dt.strftime("%Y-%m-%d %H:%M")` for a parsed hour-resolution datetime
(minutes are always `00`). -/
def fmtHM (t : HourDT) : String :=
  ⟨padDigits 4 t.y ++ "-".data ++ padDigits 2 t.m ++ "-".data ++
    padDigits 2 t.d ++ " ".data ++ padDigits 2 t.h ++ ":00".data⟩

/-- One emitted cluster record (`start`/`end`/`count` dict, lines 789-793;
`end` is a Lean keyword, so the field is named `stop`). -/
structure Cluster where
  start : String
  stop : String
  count : Nat
deriving DecidableEq

/-- Formats the running cluster `(start_dt, end_dt, count)` on emission. -/
def fmtCluster (c : HourDT × HourDT × Nat) : Cluster :=
  ⟨fmtHM c.1, fmtHM c.2.1, c.2.2⟩

/-- Parse phase plus chronological sort (lines 757-771): keys that fail
`strptime` are skipped; the survivors are stably sorted by datetime. -/
def sorted_times_of (timestamps : List (String × Nat)) : List (HourDT × Nat) :=
  pySortBy (fun a b => decide (dtHours a.1 ≤ dtHours b.1))
    (timestamps.filterMap fun p => (strptimeYmdH p.1.data).map fun dt => (dt, p.2))

/-- The scan over the sorted buckets (lines 773-803): extend the running
cluster while the gap to its last bucket is at most `max_gap_hours`,
otherwise emit it when its count reaches `min_cluster_size` and restart;
the final open cluster is emitted under the same size condition. -/
def scanGo (min_cluster_size max_gap_hours : Nat) (acc : List Cluster)
    (cur : HourDT × HourDT × Nat) : List (HourDT × Nat) → List Cluster
  | [] => if min_cluster_size ≤ cur.2.2 then acc ++ [fmtCluster cur] else acc
  | (dt, c) :: rest =>
    if (dtHours dt : Int) - (dtHours cur.2.1 : Int) ≤ (max_gap_hours : Int) then
      scanGo min_cluster_size max_gap_hours acc (cur.1, dt, cur.2.2 + c) rest
    else
      scanGo min_cluster_size max_gap_hours
        (if min_cluster_size ≤ cur.2.2 then acc ++ [fmtCluster cur] else acc)
        (dt, dt, c) rest

/-- Model of `find_time_clusters(timestamps, min_cluster_size, max_gap_hours)`
(lines 750-806).  The Python defaults are `min_cluster_size = 3`,
`max_gap_hours = 1`.  The result is sorted descending by count
(`sorted(..., reverse=True)`, stable). -/
def find_time_clusters (timestamps : List (String × Nat))
    (min_cluster_size max_gap_hours : Nat) : List Cluster :=
  match sorted_times_of timestamps with
  | [] => []
  | (dt, c) :: rest =>
    pySortBy (fun a b => decide (b.count ≤ a.count))
      (scanGo min_cluster_size max_gap_hours [] (dt, dt, c) rest)

end AeonFix

namespace AeonFix

/-- C2 counterexample: on the spec's example input
`{10:00→1, 10:30→2, 13:00→5}` the function returns no cluster at all —
not one cluster — because keys carrying a minute component do not parse
under `"%Y-%m-%d %H"` ("unconverted data remains") and are skipped. -/
theorem cluster_example_input_yields_no_clusters :
    find_time_clusters
      [("2025-01-01 10:00", 1), ("2025-01-01 10:30", 2), ("2025-01-01 13:00", 5)]
      3 1 = [] := by decide

/-- C2 amended: the minute-bearing example keys are all skipped (empty
result), and on the nearest hour-resolution input `{10→1, 11→2, 13→5}` the
function returns two clusters — the isolated 13:00 bucket is kept because
its count 5 meets the minimum 3 — sorted descending by count. -/
theorem cluster_example_behavior :
    find_time_clusters
      [("2025-01-01 10:00", 1), ("2025-01-01 10:30", 2), ("2025-01-01 13:00", 5)]
      3 1 = [] ∧
    find_time_clusters
      [("2025-01-01 10", 1), ("2025-01-01 11", 2), ("2025-01-01 13", 5)] 3 1 =
      [⟨"2025-01-01 13:00", "2025-01-01 13:00", 5⟩,
       ⟨"2025-01-01 10:00", "2025-01-01 11:00", 3⟩] := by
  constructor <;> decide

/-- Consecutive members of a cluster run are at most `gap` hours apart. -/
def gapChain (gap : Nat) (run : List (HourDT × Nat)) : Prop :=
  List.Chain'
    (fun a b => (dtHours b.1 : Int) - (dtHours a.1 : Int) ≤ (gap : Int)) run

/-- An emitted cluster is justified by a contiguous run of the sorted
buckets: nonempty, gaps at most `gap`, and the cluster's fields are the
run's first bucket, last bucket and summed count. -/
def ClusterOk (minsz gap : Nat) (sorted : List (HourDT × Nat))
    (c : Cluster) : Prop :=
  minsz ≤ c.count ∧ ∃ run : List (HourDT × Nat),
    run ≠ [] ∧ run <:+: sorted ∧ gapChain gap run ∧
    (∃ x ∈ run.head?, c.start = fmtHM x.1) ∧
    (∃ z ∈ run.getLast?, c.stop = fmtHM z.1) ∧
    c.count = (run.map Prod.snd).sum

/-- Invariant of the running cluster `cur` while `l` is still unscanned. -/
def CurOk (gap : Nat) (sorted l : List (HourDT × Nat))
    (cur : HourDT × HourDT × Nat) : Prop :=
  ∃ run : List (HourDT × Nat),
    run ≠ [] ∧ run ++ l <:+ sorted ∧ gapChain gap run ∧
    (∃ x ∈ run.head?, cur.1 = x.1) ∧
    (∃ z ∈ run.getLast?, cur.2.1 = z.1) ∧
    cur.2.2 = (run.map Prod.snd).sum

theorem emit_ok {minsz gap : Nat} {sorted l : List (HourDT × Nat)}
    {cur : HourDT × HourDT × Nat} (hcur : CurOk gap sorted l cur)
    (hsz : minsz ≤ cur.2.2) :
    ClusterOk minsz gap sorted (fmtCluster cur) := by
  obtain ⟨run, hne, hsuf, hchain, ⟨x, hx, hx2⟩, ⟨z, hz, hz2⟩, hsum⟩ := hcur
  refine ⟨hsz, run, hne, ?_, hchain, ⟨x, hx, by simp [fmtCluster, hx2]⟩,
    ⟨z, hz, by simp [fmtCluster, hz2]⟩, hsum⟩
  have h1 : run <:+: run ++ l := ⟨[], l, by simp⟩
  exact h1.trans hsuf.isInfix

theorem scanGo_spec (minsz gap : Nat) (sorted : List (HourDT × Nat)) :
    ∀ (l : List (HourDT × Nat)) (acc : List Cluster)
      (cur : HourDT × HourDT × Nat),
      (∀ c ∈ acc, ClusterOk minsz gap sorted c) →
      CurOk gap sorted l cur →
      ∀ c ∈ scanGo minsz gap acc cur l, ClusterOk minsz gap sorted c := by
  intro l
  induction l with
  | nil =>
    intro acc cur hacc hcur c hc
    rw [scanGo] at hc
    split at hc
    · rcases List.mem_append.mp hc with h | h
      · exact hacc c h
      · rcases List.mem_singleton.mp h with rfl
        exact emit_ok hcur (by assumption)
    · exact hacc c hc
  | cons e rest ih =>
    obtain ⟨dt, c0⟩ := e
    intro acc cur hacc hcur c hc
    rw [scanGo] at hc
    obtain ⟨run, hne, hsuf, hchain, ⟨x, hx, hx2⟩, ⟨z, hz, hz2⟩, hsum⟩ := hcur
    split at hc
    · refine ih acc (cur.1, dt, cur.2.2 + c0) hacc ?_ c hc
      refine ⟨run ++ [(dt, c0)], by simp, ?_, ?_, ?_, ?_, ?_⟩
      · rwa [List.append_assoc, List.singleton_append]
      · rw [gapChain, List.chain'_append]
        refine ⟨hchain, List.chain'_singleton _, ?_⟩
        intro a ha y hy
        have hyz : (dt, c0) = y := by simpa using hy
        have haz : a = z := Option.mem_unique ha hz
        subst hyz
        subst haz
        rw [← hz2]
        assumption
      · refine ⟨x, ?_, hx2⟩
        have hx' : run.head? = some x := Option.mem_def.mp hx
        have : (run ++ [(dt, c0)]).head? = some x := by
          rw [List.head?_append, hx']
          rfl
        exact Option.mem_def.mpr this
      · exact ⟨(dt, c0), Option.mem_def.mpr (by rw [List.getLast?_concat]), rfl⟩
      · simp [hsum]
    · refine ih _ ((dt, dt, c0) : HourDT × HourDT × Nat) ?_ ?_ c hc
      · intro c' hc'
        split at hc'
        · rcases List.mem_append.mp hc' with h | h
          · exact hacc c' h
          · rcases List.mem_singleton.mp h with rfl
            exact emit_ok ⟨run, hne, hsuf, hchain, ⟨x, hx, hx2⟩,
              ⟨z, hz, hz2⟩, hsum⟩ (by assumption)
        · exact hacc c' hc'
      · refine ⟨[(dt, c0)], by simp, ?_, List.chain'_singleton _, ⟨(dt, c0), rfl, rfl⟩,
          ⟨(dt, c0), rfl, rfl⟩, by simp⟩
        rw [List.singleton_append]
        exact (List.suffix_append run ((dt, c0) :: rest)).trans hsuf

/-- C9: every emitted cluster's count meets the configured minimum
(including the final open cluster), every cluster is justified by a
contiguous run of the chronologically sorted hour buckets whose
consecutive members are at most `max_gap_hours` apart, and the returned
list is sorted descending by count. -/
theorem find_time_clusters_invariants (ts : List (String × Nat))
    (minsz gap : Nat) :
    (∀ c ∈ find_time_clusters ts minsz gap, minsz ≤ c.count) ∧
    (∀ c ∈ find_time_clusters ts minsz gap, ∃ run : List (HourDT × Nat),
      run ≠ [] ∧ run <:+: sorted_times_of ts ∧ gapChain gap run ∧
      (∃ x ∈ run.head?, c.start = fmtHM x.1) ∧
      (∃ z ∈ run.getLast?, c.stop = fmtHM z.1) ∧
      c.count = (run.map Prod.snd).sum) ∧
    List.Pairwise (fun a b => b.count ≤ a.count)
      (find_time_clusters ts minsz gap) := by
  have hdesc : List.Pairwise (fun a b : Cluster => b.count ≤ a.count)
      (find_time_clusters ts minsz gap) := by
    rw [find_time_clusters]
    split
    · simp
    · refine List.Pairwise.imp (fun h => of_decide_eq_true h) ?_
      refine pairwise_pySortBy ?_ ?_ _
      · intro a b c h1 h2
        exact decide_eq_true
          (Nat.le_trans (of_decide_eq_true h2) (of_decide_eq_true h1))
      · intro a b
        rcases Nat.le_total b.count a.count with h | h
        · exact Or.inl (decide_eq_true h)
        · exact Or.inr (decide_eq_true h)
  have hok : ∀ c ∈ find_time_clusters ts minsz gap,
      ClusterOk minsz gap (sorted_times_of ts) c := by
    intro c hc
    rw [find_time_clusters] at hc
    split at hc
    · simp at hc
    · rename_i dt0 c0 rest heq
      rw [mem_pySortBy] at hc
      refine scanGo_spec minsz gap (sorted_times_of ts) rest [] _
        (by intro c' hc'; simp at hc') ?_ c hc
      refine ⟨[(dt0, c0)], by simp, ?_, List.chain'_singleton _,
        ⟨(dt0, c0), rfl, rfl⟩, ⟨(dt0, c0), rfl, rfl⟩, by simp⟩
      rw [List.singleton_append, heq]
  exact ⟨fun c hc => (hok c hc).1, fun c hc => (hok c hc).2, hdesc⟩

/-- Witness for C9 at a concrete input: the emitted cluster for the single
bucket `{2025-01-01 10:00 → 3}` meets the minimum count, and the full
result list for that input is sorted descending by count. -/
theorem find_time_clusters_invariants_witness :
    3 ≤ (Cluster.mk "2025-01-01 10:00" "2025-01-01 10:00" 3).count ∧
    List.Pairwise (fun a b : Cluster => b.count ≤ a.count)
      (find_time_clusters [("2025-01-01 10", 3)] 3 1) :=
  ⟨(find_time_clusters_invariants [("2025-01-01 10", 3)] 3 1).1
      ⟨"2025-01-01 10:00", "2025-01-01 10:00", 3⟩ (by decide),
   (find_time_clusters_invariants [("2025-01-01 10", 3)] 3 1).2.2⟩

end AeonFix

namespace AeonFix

/-!  ActionExtractor: `extract_commands_from_llm_response` (aeon_fix.py
lines 2197-2301; the later of the two module-level definitions, which is
the one bound at call time).  The two regexes are embedded as direct
matchers that reproduce Python `re` backtracking order for these
particular patterns. -/

/-- Case-insensitive literal prefix test (`pat` given lowercase),
as under `re.IGNORECASE`, modelled on the ASCII range. -/
def ciStarts (pat : Text) (t : Text) : Bool :=
  decide ((t.take pat.length).map Char.toLower = pat)

/-- Attempt of `\[\[\*\*\*\s*(.*?)\s*\*\*\*\]\]` at the start of `t`:
literal `[[***`, then greedy `\s*` (longest first), then lazy `(.*?)`
(shortest first, `.` excludes newline), then greedy `\s*`, then literal
`***]]`; returns the match length and the group, following the engine's
backtracking order. -/
def matchCmdAt (t : Text) : Option (Nat × Text) :=
  if "[[***".data.isPrefixOf t then
    let rest := t.drop 5
    let maxA := (rest.takeWhile pyIsSpace).length
    ((List.range (maxA + 1)).map (fun k => maxA - k)).findSome? fun a =>
      let afterA := rest.drop a
      let maxB := (afterA.takeWhile (fun c => c ≠ '\n')).length
      (List.range (maxB + 1)).findSome? fun b =>
        let afterB := afterA.drop b
        let maxC := (afterB.takeWhile pyIsSpace).length
        ((List.range (maxC + 1)).map (fun k => maxC - k)).findSome? fun c =>
          if "***]]".data.isPrefixOf (afterB.drop c) then
            some (5 + a + b + c + 5, afterA.take b)
          else none
  else none

/-- Attempt of `\[\[URL:\s*(https?://[^\s\]]+)\s*\]\]` (IGNORECASE) at the
start of `t`.  For this pattern backtracking never changes the outcome
(`]` is not whitespace and the class excludes whitespace and `]`), so the
greedy pieces are deterministic maximal runs. -/
def matchUrlAt (t : Text) : Option (Nat × Text) :=
  if ciStarts "[[url:".data t then
    let r1 := t.drop 6
    let a := (r1.takeWhile pyIsSpace).length
    let r2 := r1.drop a
    let schemeLen : Option Nat :=
      if ciStarts "https://".data r2 then some 8
      else if ciStarts "http://".data r2 then some 7
      else none
    match schemeLen with
    | none => none
    | some sl =>
      let r3 := r2.drop sl
      let body := r3.takeWhile (fun c => !pyIsSpace c && c ≠ ']')
      if body = [] then none
      else
        let r4 := r3.drop body.length
        let cw := (r4.takeWhile pyIsSpace).length
        if "]]".data.isPrefixOf (r4.drop cw) then
          some (6 + a + sl + body.length + cw + 2, r2.take sl ++ body)
        else none
  else none

/-- A raw regex match: start offset, end offset, group 1. -/
abbrev RawMatch := Nat × Nat × Text

/-- Scanner behind `re.finditer`: try the pattern at `pos`; on success
record the match and continue at its end, otherwise advance one position.
Both patterns only match with positive length, and `fuel` starts at
`s.length + 1`, so the scan never exhausts fuel early. -/
def finditerAux (matchAt : Text → Option (Nat × Text)) (s : Text) :
    Nat → Nat → List RawMatch
  | _, 0 => []
  | pos, fuel + 1 =>
    match matchAt (s.drop pos) with
    | some (len, grp) =>
      (pos, pos + len, grp) :: finditerAux matchAt s (pos + len) fuel
    | none =>
      if pos < s.length then finditerAux matchAt s (pos + 1) fuel else []

/-- All non-overlapping leftmost matches of a pattern, as `re.finditer`. -/
def findAll (matchAt : Text → Option (Nat × Text)) (s : Text) :
    List RawMatch :=
  finditerAux matchAt s 0 (s.length + 1)

/-- One step of `re.split(r'[.!?]\s+', t)`: the text before the first
separator (a sentence terminator followed by at least one whitespace
character, the whitespace run taken greedily) and the text after it. -/
def findSentSep : Text → Option (Text × Text)
  | [] => none
  | c :: cs =>
    if (c = '.' || c = '!' || c = '?') &&
        (match cs.head? with | some h => pyIsSpace h | none => false) then
      some ([], cs.dropWhile pyIsSpace)
    else
      (findSentSep cs).map fun pr => (c :: pr.1, pr.2)

def pySplitSentAux : Nat → Text → List Text
  | 0, t => [t]
  | fuel + 1, t =>
    match findSentSep t with
    | none => [t]
    | some (pre, rest) => pre :: pySplitSentAux fuel rest

/-- Python `re.split(r'[.!?]\s+', t)`; always returns at least one piece. -/
def pySplitSent (t : Text) : List Text := pySplitSentAux (t.length + 1) t

/-- Context extraction for a span starting at `start` (lines 2220-2224 /
2253-2257): take up to 200 characters before the span, strip, split on
sentence terminators, take the last piece, strip again; empty context is
replaced by the placeholder at the `items.append` site. -/
def contextOf (s : Text) (start : Nat) : String :=
  let cstart := start - 200
  let context_text := stripText ((s.drop cstart).take (start - cstart))
  let sentences := pySplitSent context_text
  let context := stripText ((sentences.getLast?).getD context_text)
  if context = [] then "No context found." else ⟨context⟩

/-!  `shlex` models (used for first-token extraction and list splitting). -/

/-- Contents of a single-quoted run up to the closing quote (`shlex`
POSIX mode: no escapes inside single quotes); `none` if unterminated. -/
def singleQuoteScan : Text → Option (Text × Text)
  | [] => none
  | c :: cs =>
    if c = '\'' then some ([], cs)
    else (singleQuoteScan cs).map fun pr => (c :: pr.1, pr.2)

/-- Contents of a double-quoted run up to the closing quote, accumulated
reversed (`shlex` POSIX mode: inside double quotes a backslash escapes
only `\` and `"`); `none` if unterminated. -/
def doubleQuoteScan : Text → Text → Option (Text × Text)
  | [], _ => none
  | c :: cs, acc =>
    if c = '"' then some (acc, cs)
    else if c = '\\' then
      match cs with
      | [] => none
      | d :: ds =>
        if d = '"' || d = '\\' then doubleQuoteScan ds (d :: acc)
        else doubleQuoteScan ds (d :: '\\' :: acc)
    else doubleQuoteScan cs (c :: acc)

/-- State machine for `shlex.split` in POSIX mode with
`whitespace_split=True` and comments disabled (what `shlex.split` uses):
outside quotes a backslash escapes any next character, single quotes are
literal runs, double quotes are runs with their own escape rule; an
unterminated quote or trailing escape raises `ValueError` (modelled as
`none`).  `cur` is the token in progress, accumulated reversed;
`cur = none` means no token is in progress (so `"''"` yields an empty
token while bare whitespace yields none). -/
def shlexAux : Nat → Text → Option Text → List Text → Option (List Text)
  | _, [], cur, acc =>
    some (acc ++ (match cur with | some tk => [tk.reverse] | none => []))
  | 0, _ :: _, _, _ => none
  | fuel + 1, c :: cs, cur, acc =>
    if pyIsSpace c then
      match cur with
      | some tk => shlexAux fuel cs none (acc ++ [tk.reverse])
      | none => shlexAux fuel cs none acc
    else if c = '\\' then
      match cs with
      | [] => none
      | d :: ds => shlexAux fuel ds (some (d :: cur.getD [])) acc
    else if c = '\'' then
      match singleQuoteScan cs with
      | none => none
      | some (content, rest) =>
        shlexAux fuel rest (some (content.reverse ++ cur.getD [])) acc
    else if c = '"' then
      match doubleQuoteScan cs [] with
      | none => none
      | some (content, rest) =>
        shlexAux fuel rest (some (content ++ cur.getD [])) acc
    else
      shlexAux fuel cs (some (c :: cur.getD [])) acc

/-- Python `shlex.split(s)`; `none` models the raised `ValueError`.
The fuel `s.length + 1` never runs out: every step consumes at least one
input character. -/
def shlexSplit (s : Text) : Option (List Text) :=
  shlexAux (s.length + 1) s none []

end AeonFix

namespace AeonFix

/-- Action-item kinds: the `"type"` values assigned by the extractor. -/
inductive ItemType where
  | command
  | url
  | invalid_command
  | error
deriving DecidableEq

/-- One extracted action item (the dicts appended at lines 2227-2232 and
2279-2284). -/
structure Item where
  type : ItemType
  value : String
  context : String
  original_match_position : Nat
deriving DecidableEq

/-- Foreign-OS-only first tokens checked on Windows (line 2267). -/
def foreign_os_tokens : List String :=
  ["which", "sudo", "apt", "yum", "dnf", "apt-get"]

/-- Lines 2261-2265: first word of the command via `shlex.split`, falling
back to whitespace split (empty string when there is no token at all). -/
def cmdFirstWordLower (cmd_text : Text) : Text :=
  match shlexSplit cmd_text with
  | some (w :: _) => lowerText w
  | _ =>
    match pySplitWs cmd_text with
    | w :: _ => lowerText w
    | [] => []

/-- Whether index `i` lies in some URL match's span (`processed_indices`,
lines 2210-2218). -/
def claimedIdx (urlMs : List RawMatch) (i : Nat) : Bool :=
  urlMs.any fun m => m.1 ≤ i && i < m.2.1

/-- The URL item appended for a URL match (lines 2212-2232). -/
def urlItemOf (response : Text) (m : RawMatch) : Item :=
  { type := ItemType.url
    value := ⟨stripText m.2.2⟩
    context := contextOf response m.1
    original_match_position := m.1 }

/-- The item (if any) appended for a command match (lines 2237-2284):
skip the match when it overlaps a claimed URL region (lines 2240-2247) or
when the stripped group is empty (lines 2250-2251); then classify as
`invalid_command` on Windows for foreign-OS tokens, rewrite memory
diagnostic references to `mdsched.exe`, and otherwise keep `command`.
The `error`/placeholder branch of lines 2273-2276 is kept for fidelity
but is unreachable: the empty case was already skipped at line 2250. -/
def cmdItemOf (isWindows : Bool) (response : Text) (urlMs : List RawMatch)
    (m : RawMatch) : Option Item :=
  if (List.range (m.2.1 - m.1)).any (fun k => claimedIdx urlMs (m.1 + k)) then
    none
  else
    let cmd_text := stripText m.2.2
    if cmd_text = [] then none
    else
      let fw := cmdFirstWordLower cmd_text
      let ctx := contextOf response m.1
      if isWindows && foreign_os_tokens.any (fun t => t.data = fw) then
        some { type := ItemType.invalid_command, value := ⟨cmd_text⟩,
               context := ctx, original_match_position := m.1 }
      else if containsSub "memory diagnostic".data (lowerText cmd_text) ||
          containsSub "mdsched".data (lowerText cmd_text) then
        some { type := ItemType.command, value := "mdsched.exe",
               context := ctx, original_match_position := m.1 }
      else if cmd_text = [] then
        some { type := ItemType.error, value := "[EMPTY COMMAND]",
               context := ctx, original_match_position := m.1 }
      else
        some { type := ItemType.command, value := ⟨cmd_text⟩,
               context := ctx, original_match_position := m.1 }

/-- Model of `extract_commands_from_llm_response(response)` (lines
2197-2301): URL spans are located first and their index ranges claimed;
command spans overlapping a claimed range are discarded; the remaining
items are sorted ascending by `original_match_position` (stable). -/
def extract_commands_from_llm_response (isWindows : Bool) (response : Text) :
    List Item :=
  let urlMs := findAll matchUrlAt response
  let urlItems := urlMs.map (urlItemOf response)
  let cmdMs := findAll matchCmdAt response
  let cmdItems := cmdMs.filterMap (cmdItemOf isWindows response urlMs)
  pySortBy (fun a b =>
      Nat.ble a.original_match_position b.original_match_position)
    (urlItems ++ cmdItems)

end AeonFix

namespace AeonFix

/-- C1 (evaluation at the failing input): the raw pattern finds exactly one
command span in `"[[***   ***]]"`, but `extract` returns no item at all —
the empty extraction is silently dropped by the `continue` at lines
2250-2251 instead of becoming an `Error` item with a placeholder value
(the placeholder branch at lines 2273-2276 is unreachable). -/
theorem extract_drops_empty_command_span :
    (findAll matchCmdAt "[[***   ***]]".data).length = 1 ∧
    extract_commands_from_llm_response false "[[***   ***]]".data = [] ∧
    extract_commands_from_llm_response true "[[***   ***]]".data = [] :=
  ⟨by decide, by decide, by decide⟩

theorem matchCmdAt_pos {t : Text} {len : Nat} {g : Text}
    (h : matchCmdAt t = some (len, g)) : 1 ≤ len := by
  rw [matchCmdAt] at h
  split at h
  · obtain ⟨a, -, h⟩ := List.exists_of_findSome?_eq_some h
    obtain ⟨b, -, h⟩ := List.exists_of_findSome?_eq_some h
    obtain ⟨c, -, h⟩ := List.exists_of_findSome?_eq_some h
    split at h
    · rw [Option.some_inj] at h
      have h1 : 5 + a + b + c + 5 = len := congrArg Prod.fst h
      omega
    · exact absurd h (by simp)
  · exact absurd h (by simp)

theorem matchUrlAt_pos {t : Text} {len : Nat} {g : Text}
    (h : matchUrlAt t = some (len, g)) : 1 ≤ len := by
  simp only [matchUrlAt] at h
  split at h
  · split at h
    · exact absurd h (by simp)
    · split at h
      · exact absurd h (by simp)
      · split at h
        · rw [Option.some_inj] at h
          have h1 := congrArg Prod.fst h
          simp only at h1
          omega
        · exact absurd h (by simp)
  · exact absurd h (by simp)

theorem finditerAux_spec {matchAt : Text → Option (Nat × Text)}
    (hpos : ∀ t len g, matchAt t = some (len, g) → 1 ≤ len) (s : Text) :
    ∀ (fuel pos : Nat),
      (∀ m ∈ finditerAux matchAt s pos fuel, pos ≤ m.1 ∧ m.1 < m.2.1) ∧
      List.Pairwise (fun a b : RawMatch => a.2.1 ≤ b.1)
        (finditerAux matchAt s pos fuel) := by
  intro fuel
  induction fuel with
  | zero => intro pos; simp [finditerAux]
  | succ fuel ih =>
    intro pos
    cases hm : matchAt (s.drop pos) with
    | some r =>
      obtain ⟨len, grp⟩ := r
      have hlen := hpos _ _ _ hm
      simp only [finditerAux, hm]
      constructor
      · intro m hm'
        rcases List.mem_cons.mp hm' with rfl | hm'
        · exact ⟨Nat.le_refl _, show pos < pos + len by omega⟩
        · have hb := (ih (pos + len)).1 m hm'
          exact ⟨by omega, hb.2⟩
      · refine List.pairwise_cons.mpr ⟨?_, (ih (pos + len)).2⟩
        intro m hm'
        exact ((ih (pos + len)).1 m hm').1
    | none =>
      simp only [finditerAux, hm]
      split
      · constructor
        · intro m hm'
          have hb := (ih (pos + 1)).1 m hm'
          exact ⟨by omega, hb.2⟩
        · exact (ih (pos + 1)).2
      · simp

theorem findAll_bounds {matchAt : Text → Option (Nat × Text)}
    (hpos : ∀ t len g, matchAt t = some (len, g) → 1 ≤ len) (s : Text) :
    ∀ m ∈ findAll matchAt s, m.1 < m.2.1 :=
  fun m hm => ((finditerAux_spec hpos s (s.length + 1) 0).1 m hm).2

theorem findAll_starts_strict {matchAt : Text → Option (Nat × Text)}
    (hpos : ∀ t len g, matchAt t = some (len, g) → 1 ≤ len) (s : Text) :
    List.Pairwise (fun a b : RawMatch => a.1 < b.1) (findAll matchAt s) := by
  have h1 := (finditerAux_spec hpos s (s.length + 1) 0).2
  have h2 := findAll_bounds hpos s
  refine List.Pairwise.imp_of_mem ?_ h1
  intro a b ha _ hab
  exact Nat.lt_of_lt_of_le (h2 a ha) hab

end AeonFix

namespace AeonFix

theorem cmdItemOf_spec {isWindows : Bool} {response : Text}
    {urlMs : List RawMatch} {m : RawMatch} {it : Item}
    (h : cmdItemOf isWindows response urlMs m = some it) :
    it.original_match_position = m.1 ∧ it.type ≠ ItemType.url ∧
    (List.range (m.2.1 - m.1)).any
      (fun k => claimedIdx urlMs (m.1 + k)) = false := by
  simp only [cmdItemOf] at h
  split at h
  · exact absurd h (by simp)
  · rename_i hnotov
    split at h
    · exact absurd h (by simp)
    · split at h
      · rw [Option.some_inj] at h
        subst h
        exact ⟨rfl, by simp, Bool.not_eq_true _ ▸ (by simpa using hnotov)⟩
      · split at h
        · rw [Option.some_inj] at h
          subst h
          exact ⟨rfl, by simp, Bool.not_eq_true _ ▸ (by simpa using hnotov)⟩
        · rw [Option.some_inj] at h
          subst h
          exact ⟨rfl, by simp, Bool.not_eq_true _ ▸ (by simpa using hnotov)⟩

theorem urlItems_filter_eq {response : Text} {urlMs : List RawMatch}
    (hp : List.Pairwise (fun a b : RawMatch => a.1 < b.1) urlMs)
    {m : RawMatch} (hm : m ∈ urlMs) :
    (urlMs.map (urlItemOf response)).filter
        (fun it => it.original_match_position == m.1) =
      [urlItemOf response m] := by
  induction urlMs with
  | nil => cases hm
  | cons x xs ih =>
    rcases List.pairwise_cons.mp hp with ⟨hx, hxs⟩
    rcases List.mem_cons.mp hm with rfl | hm'
    · simp only [List.map_cons, List.filter_cons]
      have hbeq : ((urlItemOf response m).original_match_position == m.1) = true := by
        simp [urlItemOf]
      rw [if_pos hbeq]
      congr 1
      rw [List.filter_eq_nil_iff]
      intro it hit
      rcases List.mem_map.mp hit with ⟨b, hb, rfl⟩
      have hlt := hx b hb
      simp only [urlItemOf, beq_iff_eq]
      omega
    · simp only [List.map_cons, List.filter_cons]
      have hlt := hx m hm'
      have hbeq : ((urlItemOf response x).original_match_position == m.1) = false := by
        simp only [urlItemOf, beq_eq_false_iff_ne, ne_eq]
        omega
      rw [if_neg (by simp [hbeq])]
      exact ih hxs hm'

/-- C7: every URL match yields exactly one extracted item at its start
position, of kind `url`; and every non-`url` item comes from a command
match none of whose indices lies in a claimed URL range — so no command
item whose match range intersects a claimed URL range is ever emitted. -/
theorem url_span_extracted_once_never_as_command (isWindows : Bool)
    (response : Text) :
    (∀ m ∈ findAll matchUrlAt response,
      ((extract_commands_from_llm_response isWindows response).filter
          (fun it => it.original_match_position == m.1)).map Item.type =
        [ItemType.url]) ∧
    (∀ it ∈ extract_commands_from_llm_response isWindows response,
      it.type ≠ ItemType.url →
      ∃ cm ∈ findAll matchCmdAt response,
        it.original_match_position = cm.1 ∧
        (List.range (cm.2.1 - cm.1)).all
          (fun k => !claimedIdx (findAll matchUrlAt response) (cm.1 + k)) =
          true) := by
  have hurlStrict := @findAll_starts_strict matchUrlAt
    (fun _ _ _ h => matchUrlAt_pos h) response
  have hurlBounds := @findAll_bounds matchUrlAt
    (fun _ _ _ h => matchUrlAt_pos h) response
  have hcmdBounds := @findAll_bounds matchCmdAt
    (fun _ _ _ h => matchCmdAt_pos h) response
  constructor
  · intro m hm
    have hperm :
        ((extract_commands_from_llm_response isWindows response).filter
          (fun it => it.original_match_position == m.1)).Perm
        ((((findAll matchUrlAt response).map (urlItemOf response)) ++
          ((findAll matchCmdAt response).filterMap
            (cmdItemOf isWindows response (findAll matchUrlAt response)))).filter
          (fun it => it.original_match_position == m.1)) := by
      exact (perm_pySortBy _ _).filter _
    have hcmdnil :
        (((findAll matchCmdAt response).filterMap
            (cmdItemOf isWindows response (findAll matchUrlAt response))).filter
          (fun it => it.original_match_position == m.1)) = [] := by
      rw [List.filter_eq_nil_iff]
      intro it hit
      rcases List.mem_filterMap.mp hit with ⟨cm, hcm, hsome⟩
      obtain ⟨hpos, -, hnoov⟩ := cmdItemOf_spec hsome
      simp only [beq_iff_eq, hpos]
      intro hEq
      have h0mem : (0 : Nat) ∈ List.range (cm.2.1 - cm.1) :=
        List.mem_range.mpr (by have := hcmdBounds cm hcm; omega)
      have hfalse :
          claimedIdx (findAll matchUrlAt response) (cm.1 + 0) = false := by
        have := List.any_eq_false.mp hnoov _ h0mem
        simpa using this
      have htrue :
          claimedIdx (findAll matchUrlAt response) (cm.1 + 0) = true := by
        refine List.any_eq_true.mpr ⟨m, hm, ?_⟩
        have hb := hurlBounds m hm
        simp only [Bool.and_eq_true, decide_eq_true_eq]
        omega
      rw [hfalse] at htrue
      exact Bool.false_ne_true htrue
    rw [List.filter_append, hcmdnil, List.append_nil,
      urlItems_filter_eq hurlStrict hm] at hperm
    have heq := List.Perm.eq_singleton hperm
    rw [heq]
    simp [urlItemOf]
  · intro it hit htype
    rw [extract_commands_from_llm_response, mem_pySortBy] at hit
    rcases List.mem_append.mp hit with hu | hc
    · rcases List.mem_map.mp hu with ⟨x, -, rfl⟩
      exact absurd rfl htype
    · rcases List.mem_filterMap.mp hc with ⟨cm, hcm, hsome⟩
      obtain ⟨hpos, -, hnoov⟩ := cmdItemOf_spec hsome
      refine ⟨cm, hcm, hpos, ?_⟩
      rw [List.all_eq_true]
      intro k hk
      have := List.any_eq_false.mp hnoov k hk
      simpa using this

end AeonFix

namespace AeonFix

/-- Witness for C7: a URL span nested inside text that also matches the
command-bracket pattern is extracted exactly once, as `url`. -/
theorem url_span_extracted_once_never_as_command_witness :
    ((extract_commands_from_llm_response false
        "See [[*** [[URL: http://ex.com ]] ***]] ok".data).filter
      (fun it => it.original_match_position ==
        ((10, 33, "http://ex.com".data) : RawMatch).1)).map Item.type =
      [ItemType.url] :=
  (url_span_extracted_once_never_as_command false
      "See [[*** [[URL: http://ex.com ]] ***]] ok".data).1
    (10, 33, "http://ex.com".data) (by decide)

/-!  CommandExecutor: `run_command` (aeon_fix.py lines 863-1070).
The `subprocess.run` call and the confirmation prompt are external
effects, passed in as oracle values; the Rich and non-Rich execution arms
perform the identical `subprocess.run` invocation and are modelled once.
The MSC special case (lines 946-951) and the codepage detection only
change the launch arguments and the decode encoding, not the shape of the
returned record, and the decode step (`errors='replace'`, total) is
modelled by the launcher supplying already-decoded text. -/

/-- The Python value passed as `command`: a string (`shell=True` path) or
a list of strings (`shell=False` path). -/
inductive CmdArg where
  | strArg (s : String)
  | listArg (l : List String)
deriving DecidableEq

/-- Outcome of the `subprocess.run` call as seen by the `try` block:
normal completion, or one of the exception classes handled at lines
1042-1069. -/
inductive LaunchResult where
  | completed (returncode : Int) (stdout stderr : Option String)
  | fileNotFound (msg : String)
  | timeoutExpired
  | otherError (msg : String) (tb : String)
deriving DecidableEq

/-- The result dictionary of `run_command` (initialised at lines 890-901).
The three early-error returns (lines 877, 882, 887) carry a reduced key
set in Python; they are modelled with the same record, default-valued. -/
structure RunResult where
  command_str : String
  shell_mode : Bool
  success : Bool
  output : String
  error : String
  return_code : Option Int
  confirmed : Bool
  executed : Bool
  execution_time : Nat
  traceback : Option String
deriving DecidableEq

/-- Characters `shlex.quote` leaves unquoted: ASCII letters and digits
plus underscore, at sign, percent, plus, equals, colon, comma, dot,
slash and hyphen. -/
def shlexSafeChar (c : Char) : Bool :=
  c.isAlphanum || c = '_' || c = '@' || c = '%' || c = '+' || c = '=' ||
    c = ':' || c = ',' || c = '.' || c = '/' || c = '-'

/-- Python `shlex.quote`. -/
def shlexQuote (s : String) : String :=
  if s.data = [] then "''"
  else if s.data.all shlexSafeChar then s
  else ⟨'\'' :: (s.data.flatMap fun c =>
    if c = '\'' then "'\"'\"'".data else [c]) ++ ['\'']⟩

/-- The display string `cmd_str` computed at lines 878 / 888: the raw
string in shell mode, or the space-joined `shlex.quote`d arguments;
`none` when the argument shape is rejected before `cmd_str` is built. -/
def cmd_str_of (shell : Bool) (command : CmdArg) : Option String :=
  match shell, command with
  | true, CmdArg.strArg s => some s
  | false, CmdArg.listArg (a :: rest) =>
    some (String.intercalate " " ((a :: rest).map shlexQuote))
  | _, _ => none

/-- Python `repr` of the rejected `command` value as stored under the
`"command"` key of the early-error dicts (quoting of embedded quotes is
approximated; no claim depends on this string). -/
def pyReprOf : CmdArg → String
  | CmdArg.strArg s => "'" ++ s ++ "'"
  | CmdArg.listArg l =>
    "[" ++ String.intercalate ", " (l.map fun x => "'" ++ x ++ "'") ++ "]"

/-- The declined-confirmation result (lines 929-933): the initialised
record returned unchanged except that `confirmed` stayed `false`. -/
def declineResult (cs : String) (shell : Bool) : RunResult :=
  { command_str := cs, shell_mode := shell, success := false, output := "",
    error := "", return_code := none, confirmed := false, executed := false,
    execution_time := 0, traceback := none }

/-- Main path of `run_command` once `cmd_str` exists (lines 890-1070).
`confirmAnswer` is the operator's reply to the confirmation prompt,
`launch` the `subprocess.run` outcome, `duration` the measured wall
clock.  `none` models the uncaught `IndexError` that
`is_dangerous_command` raises on a token-less command string. -/
def run_command_main (cmd_str : String) (shell capture_output
    require_confirmation confirmAnswer : Bool) (launch : LaunchResult)
    (duration : Nat) : Option RunResult :=
  match is_dangerous_command cmd_str with
  | none => none
  | some dangerous =>
    let base := declineResult cmd_str shell
    let needs_confirmation := require_confirmation || dangerous
    if needs_confirmation && !confirmAnswer then
      some base
    else
      let base := { base with confirmed := true }
      match launch with
      | LaunchResult.completed rc out err =>
        some { base with
          success := decide (rc = 0), executed := true,
          return_code := some rc, execution_time := duration,
          output := if capture_output then out.getD "" else "",
          error := if capture_output then err.getD "" else "" }
      | LaunchResult.fileNotFound msg =>
        some { base with error := "Command or executable not found: " ++ msg }
      | LaunchResult.timeoutExpired =>
        some { base with error := "Command timed out.", executed := true }
      | LaunchResult.otherError msg tb =>
        some { base with
          error := "Error executing command: " ++ msg,
          traceback := some tb }

/-- Model of `run_command(command, capture_output, shell,
require_confirmation, explanation)` (lines 863-1070).  The `explanation`
parameter only affects console output and is elided. -/
def run_command (command : CmdArg) (capture_output shell
    require_confirmation confirmAnswer : Bool) (launch : LaunchResult)
    (duration : Nat) : Option RunResult :=
  match shell, command with
  | true, CmdArg.listArg l =>
    some { declineResult (pyReprOf (CmdArg.listArg l)) true with
      error := "Invalid command type for shell=True" }
  | false, CmdArg.strArg s =>
    some { declineResult (pyReprOf (CmdArg.strArg s)) false with
      error := "Invalid command type for shell=False" }
  | false, CmdArg.listArg [] =>
    some { declineResult "[]" false with error := "Empty command list" }
  | true, CmdArg.strArg s =>
    run_command_main s true capture_output require_confirmation
      confirmAnswer launch duration
  | false, CmdArg.listArg (a :: rest) =>
    run_command_main (String.intercalate " " ((a :: rest).map shlexQuote))
      false capture_output require_confirmation confirmAnswer launch duration

end AeonFix

namespace AeonFix

theorem run_command_main_decline (cmd_str : String) (shell capture_output
    require_confirmation : Bool) (launch : LaunchResult) (duration : Nat)
    {d : Bool} (hd : is_dangerous_command cmd_str = some d)
    (hneed : (require_confirmation || d) = true) :
    run_command_main cmd_str shell capture_output require_confirmation
      false launch duration = some (declineResult cmd_str shell) := by
  simp only [run_command_main, hd]
  simp [hneed]

theorem run_command_main_exec_inv (cmd_str : String) (shell capture_output
    require_confirmation confirmAnswer : Bool) (launch : LaunchResult)
    (duration : Nat) :
    ∀ r, run_command_main cmd_str shell capture_output require_confirmation
        confirmAnswer launch duration = some r →
      r.executed = false → r.success = false := by
  intro r hr
  simp only [run_command_main] at hr
  split at hr
  · exact absurd hr (by simp)
  · split at hr
    · rw [Option.some_inj] at hr
      subst hr
      intro _
      simp [declineResult]
    · cases launch <;> rw [Option.some_inj] at hr <;> subst hr <;>
        simp [declineResult]

/-- C8: every result returned by `run_command` satisfies
`executed = false → succeeded = false`, and a declined confirmation
short-circuits to the initialised record with
`executed = false, succeeded = false, confirmed = false`, independent of
the launch oracle — no OS process outcome enters the result. -/
theorem run_command_exec_implies_confirmed_success_inv (command : CmdArg)
    (capture_output shell require_confirmation confirmAnswer : Bool)
    (launch : LaunchResult) (duration : Nat) :
    (∀ r, run_command command capture_output shell require_confirmation
        confirmAnswer launch duration = some r →
      r.executed = false → r.success = false) ∧
    (∀ cs d, cmd_str_of shell command = some cs →
      is_dangerous_command cs = some d →
      (require_confirmation || d) = true →
      confirmAnswer = false →
      run_command command capture_output shell require_confirmation
        confirmAnswer launch duration = some (declineResult cs shell)) := by
  constructor
  · intro r hr
    match shell, command, hr with
    | true, CmdArg.listArg l, hr =>
      rw [run_command, Option.some_inj] at hr
      subst hr
      intro _
      rfl
    | false, CmdArg.strArg s, hr =>
      rw [run_command, Option.some_inj] at hr
      subst hr
      intro _
      rfl
    | false, CmdArg.listArg [], hr =>
      rw [run_command, Option.some_inj] at hr
      subst hr
      intro _
      rfl
    | true, CmdArg.strArg s, hr =>
      exact run_command_main_exec_inv _ _ _ _ _ _ _ r (by rw [← hr]; rfl)
    | false, CmdArg.listArg (a :: rest), hr =>
      exact run_command_main_exec_inv _ _ _ _ _ _ _ r (by rw [← hr]; rfl)
  · intro cs d hcs hd hneed hconf
    subst hconf
    match shell, command, hcs with
    | true, CmdArg.strArg s, hcs =>
      rw [cmd_str_of, Option.some_inj] at hcs
      subst hcs
      exact run_command_main_decline _ _ _ _ launch duration hd hneed
    | false, CmdArg.listArg (a :: rest), hcs =>
      rw [cmd_str_of, Option.some_inj] at hcs
      subst hcs
      exact run_command_main_decline _ _ _ _ launch duration hd hneed

/-- Witness for C8: declining the confirmation of `echo hi` returns the
cancellation record, whose `executed` and `success` are both false. -/
theorem run_command_exec_inv_witness :
    run_command (CmdArg.strArg "echo hi") true true true false
        (LaunchResult.completed 0 none none) 0 =
      some (declineResult "echo hi" true) ∧
    (declineResult "echo hi" true).success = false := by
  have h := run_command_exec_implies_confirmed_success_inv
    (CmdArg.strArg "echo hi") true true true false
    (LaunchResult.completed 0 none none) 0
  have hdecl := h.2 "echo hi" false rfl (by decide) (by decide) rfl
  exact ⟨hdecl, h.1 (declineResult "echo hi" true) hdecl (by decide)⟩

/-- The `timeout` keyword argument of the embedded `subprocess.run`
invocations (lines 978-984 and 999-1005): it is never passed, so it is
`None`. -/
def subprocess_run_timeout_arg : Option Nat := none

/-- Modelled from Python's `subprocess` semantics: `subprocess.run`
raises `TimeoutExpired` only when a `timeout` argument was supplied, so
a `timeoutExpired` launch outcome is possible only when the call passes
a timeout. -/
def launch_outcome_possible (timeoutArg : Option Nat)
    (l : LaunchResult) : Prop :=
  l = LaunchResult.timeoutExpired → timeoutArg ≠ none

theorem run_command_main_no_timeout (cmd_str : String) (shell capture_output
    require_confirmation confirmAnswer : Bool) (launch : LaunchResult)
    (duration : Nat) (hl : launch ≠ LaunchResult.timeoutExpired) :
    ∀ r, run_command_main cmd_str shell capture_output require_confirmation
        confirmAnswer launch duration = some r →
      r.executed = true → ∃ rc, r.return_code = some rc := by
  intro r hr
  simp only [run_command_main] at hr
  split at hr
  · exact absurd hr (by simp)
  · split at hr
    · rw [Option.some_inj] at hr
      subst hr
      intro hex
      exact absurd hex (by simp [declineResult])
    · cases launch with
      | completed rc out err =>
        rw [Option.some_inj] at hr
        subst hr
        intro _
        exact ⟨rc, rfl⟩
      | fileNotFound msg =>
        rw [Option.some_inj] at hr
        subst hr
        intro hex
        exact absurd hex (by simp [declineResult])
      | timeoutExpired => exact absurd rfl hl
      | otherError msg tb =>
        rw [Option.some_inj] at hr
        subst hr
        intro hex
        exact absurd hex (by simp [declineResult])

/-- C10: since the `subprocess.run` call sites pass no timeout argument,
the `TimeoutExpired` handler (which would produce `executed = true` with
no exit code and the "Command timed out." error) is unreachable: every
result with `executed = true` carries an exit code from a completed
process. -/
theorem run_command_never_reports_timeout (command : CmdArg)
    (capture_output shell require_confirmation confirmAnswer : Bool)
    (launch : LaunchResult) (duration : Nat)
    (hl : launch_outcome_possible subprocess_run_timeout_arg launch) :
    ∀ r, run_command command capture_output shell require_confirmation
        confirmAnswer launch duration = some r →
      r.executed = true → ∃ rc, r.return_code = some rc := by
  have hlaunch : launch ≠ LaunchResult.timeoutExpired := by
    intro heq
    exact hl heq rfl
  intro r hr
  match shell, command, hr with
  | true, CmdArg.listArg l, hr =>
    rw [run_command, Option.some_inj] at hr
    subst hr
    intro hex
    exact absurd hex (by simp [declineResult])
  | false, CmdArg.strArg s, hr =>
    rw [run_command, Option.some_inj] at hr
    subst hr
    intro hex
    exact absurd hex (by simp [declineResult])
  | false, CmdArg.listArg [], hr =>
    rw [run_command, Option.some_inj] at hr
    subst hr
    intro hex
    exact absurd hex (by simp [declineResult])
  | true, CmdArg.strArg s, hr =>
    exact run_command_main_no_timeout _ _ _ _ _ _ _ hlaunch r
      (by rw [← hr]; rfl)
  | false, CmdArg.listArg (a :: rest), hr =>
    exact run_command_main_no_timeout _ _ _ _ _ _ _ hlaunch r
      (by rw [← hr]; rfl)

/-- Witness for C10: a confirmed `echo hi` completing with exit code 7
yields a result whose `executed = true` comes with an exit code. -/
theorem run_command_never_reports_timeout_witness :
    ∃ rc, (RunResult.mk "echo hi" true false "" "" (some 7) true true 2
      none).return_code = some rc :=
  run_command_never_reports_timeout (CmdArg.strArg "echo hi") true true true
    true (LaunchResult.completed 7 none none) 2
    (fun h => absurd h (by decide))
    (RunResult.mk "echo hi" true false "" "" (some 7) true true 2 none)
    (by decide) (by decide)

end AeonFix

namespace AeonFix

/-!  OrchestrationLoop: the interactive while loop of
`handle_llm_response` (aeon_fix.py lines 1576-1869).  One loop iteration
becomes a step function on the state `(plan, cursor, history)`; the
operator's answers, the `subprocess.run` outcomes and the decision
engine's reply are oracle fields of `StepInput`.  The purpose-string
resolution of lines 1587-1609 only affects console output and the
`explanation` argument (itself display-only) and is elided. -/

/-- One entry of `session_command_history` appended after execution
(lines 1682-1690). -/
structure AttemptRecord where
  command : String
  executed : Bool
  confirmed : Bool
  success : Bool
  output : String
  error : String
  return_code : Option Int
deriving DecidableEq

/-- `session_command_history` holds both bare command strings (appended
at line 1615) and attempt record dicts (appended at line 1682). -/
inductive HistEntry where
  | str (s : String)
  | record (r : AttemptRecord)
deriving DecidableEq

/-- Python `cmd_str in session_command_history`: `==` against each entry;
a string never equals a dict, so only the bare-string entries count. -/
def stringHistMem (hist : List HistEntry) (cmd : String) : Bool :=
  hist.any fun e =>
    match e with
    | HistEntry.str t => t == cmd
    | HistEntry.record _ => false

/-- Loop state: `executable_commands`, `current_command_index`,
`session_command_history`. -/
structure LoopState where
  plan : List Item
  idx : Nat
  hist : List HistEntry
deriving DecidableEq

/-- Oracle inputs consumed by one loop iteration. -/
structure StepInput where
  whereConfirm : Bool
  whereLaunch : LaunchResult
  whereDuration : Nat
  tryAnyway : Bool
  mainConfirm : Bool
  mainLaunch : LaunchResult
  mainDuration : Nat
  analysisResponse : Option String
  runNew : Bool
deriving DecidableEq

/-- Why the loop stopped (`break` sites and loop-condition exit). -/
inductive StopReason where
  | cycleDetected
  | userDeclined
  | userRejectedSuggestion
  | llmStop
  | exhausted
deriving DecidableEq

/-- Result of one loop iteration: an uncaught exception, a continuing
state, or a `break`/exit; `execs` lists the `run_command` invocations the
iteration performed (the `where` probe and the step's own command). -/
inductive StepOut where
  | crashed
  | cont (s : LoopState) (execs : List CmdArg)
  | stopped (r : StopReason) (s : LoopState) (execs : List CmdArg)
deriving DecidableEq

/-- `known_builtins` of the pre-execution check (line 1628). -/
def known_builtins : List String :=
  ["cmd", "powershell", "ren", "copy", "del", "dir", "move", "rd", "md",
   "echo", "set", "net", "chkdsk", "regsvr32", "sfc", "wmic", "tasklist",
   "ipconfig", "systeminfo", "driverquery", "where", "start", "msinfo32",
   "dxdiag", "devmgmt.msc", "eventvwr.msc", "services.msc", "taskmgr",
   "perfmon", "winver", "control", "mdsched.exe"]

/-- Lines 1621-1625: `potential_cmd_name` via `shlex.split(cmd_str)[0]`
with a bare `except` falling back to `cmd_str.split()[0]`; `none` models
the uncaught `IndexError` of the fallback on a token-less string. -/
def first_token_of (cmd : String) : Option String :=
  match shlexSplit cmd.data with
  | some (w :: _) => some ⟨w⟩
  | _ =>
    match pySplitWs cmd.data with
    | w :: _ => some ⟨w⟩
    | [] => none

/-- Outcome of the Windows existence pre-check (lines 1617-1650). -/
inductive PrecheckOut where
  | crash
  | skipStep (execs : List CmdArg)
  | runStep (execs : List CmdArg)
deriving DecidableEq

/-- The pre-execution check (lines 1617-1650): on Windows, when the first
token is not a known builtin and has no path separator, probe it with
`run_command(['where', name], require_confirmation=False)`; a failed
probe asks the operator whether to attempt anyway — declining skips the
step. -/
def precheck (isWindows : Bool) (cmd : String) (inp : StepInput) :
    PrecheckOut :=
  if isWindows then
    match first_token_of cmd with
    | none => PrecheckOut.crash
    | some name =>
      if !(known_builtins.any fun b => b.data = lowerText name.data) &&
          !(name.data.any fun c => c = '\\' || c = '/') then
        let whereArg := CmdArg.listArg ["where", name]
        match run_command whereArg true false false inp.whereConfirm
            inp.whereLaunch inp.whereDuration with
        | none => PrecheckOut.crash
        | some wr =>
          if wr.success then PrecheckOut.runStep [whereArg]
          else if inp.tryAnyway then PrecheckOut.runStep [whereArg]
          else PrecheckOut.skipStep [whereArg]
      else PrecheckOut.runStep []
  else PrecheckOut.runStep []

/-- Shell-mode selection (lines 1652-1670): shell string when the text
contains a pipe, redirect or logical-chaining operator, or `%` on
Windows; otherwise `shlex.split` into an argument vector, falling back
to a shell string when `shlex` raises `ValueError`. -/
def shell_mode_of (isWindows : Bool) (cmd : String) : Bool × CmdArg :=
  if containsSub "|".data cmd.data || containsSub ">".data cmd.data ||
      containsSub "<".data cmd.data || containsSub "&&".data cmd.data ||
      containsSub "||".data cmd.data ||
      (containsSub "%".data cmd.data && isWindows) then
    (true, CmdArg.strArg cmd)
  else
    match shlexSplit cmd.data with
    | some toks => (false, CmdArg.listArg (toks.map fun t => (⟨t⟩ : String)))
    | none => (true, CmdArg.strArg cmd)

/-- The step's own `run_command` call (lines 1672-1679):
`require_confirmation=True` always for steps run in sequence. -/
def mainExec (isWindows : Bool) (cmd : String) (inp : StepInput) :
    Option RunResult :=
  run_command (shell_mode_of isWindows cmd).2 true
    (shell_mode_of isWindows cmd).1 true inp.mainConfirm inp.mainLaunch
    inp.mainDuration

/-- The history record appended after the attempt (lines 1682-1690). -/
def recordOf (cmd : String) (r : RunResult) : AttemptRecord :=
  ⟨cmd, r.executed, r.confirmed, r.success, r.output, r.error, r.return_code⟩

/-- The decision engine's verdict for the re-planning consultation. -/
inductive VerdictAct where
  | proceedV
  | suggestNewV (it : Item)
  | stopV
deriving DecidableEq

/-- Verdict parsing (lines 1786-1818): a missing response maps to stop;
otherwise the lower-cased, stripped response must start with `proceed`,
`suggest_new` (in which case the first item that
`extract_commands_from_llm_response` finds in the response becomes the
suggestion; none found maps to stop) or anything else maps to stop. -/
def verdict_of (isWindows : Bool) (resp : Option String) : VerdictAct :=
  match resp with
  | none => VerdictAct.stopV
  | some r =>
    let t := stripText (lowerText r.data)
    if "proceed".data.isPrefixOf t then VerdictAct.proceedV
    else if "suggest_new".data.isPrefixOf t then
      match extract_commands_from_llm_response isWindows r.data with
      | [] => VerdictAct.stopV
      | c :: _ => VerdictAct.suggestNewV c
    else VerdictAct.stopV

/-- One iteration of the `while current_command_index <
len(executable_commands)` loop (lines 1583-1858), in source order:
cycle guard (1611-1615, `break` before anything runs), pre-execution
check (1617-1650, declining a failed probe skips the step), execution
(1672-1679), unconditional history append (1682-1690), then: a declined
confirmation breaks (1856-1858); a successful final step falls through
with the cursor unchanged (1847-1853), so the next iteration trips the
cycle guard; otherwise the consultation verdict is applied (1821-1845):
`proceed` advances the cursor, `suggest_new` inserts the confirmed
suggestion right after the cursor and advances onto it (a decline
breaks), `stop` breaks. -/
def handle_llm_response_step (isWindows : Bool) (s : LoopState)
    (inp : StepInput) : StepOut :=
  if hidx : s.idx < s.plan.length then
    let cmd := (s.plan.get ⟨s.idx, hidx⟩).value
    if stringHistMem s.hist cmd then
      StepOut.stopped StopReason.cycleDetected s []
    else
      let hist1 := s.hist ++ [HistEntry.str cmd]
      match precheck isWindows cmd inp with
      | PrecheckOut.crash => StepOut.crashed
      | PrecheckOut.skipStep ex =>
        StepOut.cont ⟨s.plan, s.idx + 1, hist1⟩ ex
      | PrecheckOut.runStep ex =>
        match mainExec isWindows cmd inp with
        | none => StepOut.crashed
        | some r =>
          let hist2 := hist1 ++ [HistEntry.record (recordOf cmd r)]
          let execs := ex ++ [(shell_mode_of isWindows cmd).2]
          if r.executed then
            if !r.success || !(decide (s.idx = s.plan.length - 1)) then
              match verdict_of isWindows inp.analysisResponse with
              | VerdictAct.proceedV =>
                StepOut.cont ⟨s.plan, s.idx + 1, hist2⟩ execs
              | VerdictAct.suggestNewV c =>
                if inp.runNew then
                  StepOut.cont
                    ⟨List.insertIdx (s.idx + 1) c s.plan, s.idx + 1, hist2⟩
                    execs
                else
                  StepOut.stopped StopReason.userRejectedSuggestion
                    ⟨s.plan, s.idx, hist2⟩ execs
              | VerdictAct.stopV =>
                StepOut.stopped StopReason.llmStop ⟨s.plan, s.idx, hist2⟩
                  execs
            else
              StepOut.cont ⟨s.plan, s.idx, hist2⟩ execs
          else
            StepOut.stopped StopReason.userDeclined ⟨s.plan, s.idx, hist2⟩
              execs
  else StepOut.stopped StopReason.exhausted s []

/-- The initial plan (lines 1514-1515): the `command`-kind items of the
extraction. -/
def initial_plan (isWindows : Bool) (response : Text) : List Item :=
  (extract_commands_from_llm_response isWindows response).filter
    fun it => it.type == ItemType.command

/-- The loop's starting state for a plan: cursor 0, empty history
(lines 1579-1582). -/
def initState (p : List Item) : LoopState := ⟨p, 0, []⟩

/-- Reachability along continuing loop iterations. -/
inductive Reaches (isWindows : Bool) : LoopState → LoopState → Prop where
  | refl (s : LoopState) : Reaches isWindows s s
  | step {s t u : LoopState} (inp : StepInput) (ex : List CmdArg)
      (h : handle_llm_response_step isWindows s inp = StepOut.cont t ex)
      (htu : Reaches isWindows t u) : Reaches isWindows s u

/-- Invariant: every plan position strictly before the cursor has had its
command text appended to the history (line 1615 runs before the cursor
can move past a position). -/
def PlanInv (s : LoopState) : Prop :=
  ∀ i, i < s.idx → ∃ hl : i < s.plan.length,
    stringHistMem s.hist (s.plan.get ⟨i, hl⟩).value = true

end AeonFix

namespace AeonFix

theorem stringHistMem_append_left {hist : List HistEntry} {cmd : String}
    (l : List HistEntry) (h : stringHistMem hist cmd = true) :
    stringHistMem (hist ++ l) cmd = true := by
  rw [stringHistMem, List.any_append]
  rw [stringHistMem] at h
  rw [h]
  rfl

theorem stringHistMem_append_str (hist : List HistEntry) (cmd : String) :
    stringHistMem (hist ++ [HistEntry.str cmd]) cmd = true := by
  rw [stringHistMem, List.any_append]
  simp [stringHistMem]

theorem step_cont_inv {isWindows : Bool} {s t : LoopState} {inp : StepInput}
    {ex : List CmdArg}
    (h : handle_llm_response_step isWindows s inp = StepOut.cont t ex)
    (hinv : PlanInv s) : PlanInv t := by
  simp only [handle_llm_response_step] at h
  split at h
  case isFalse => exact absurd h (by simp)
  case isTrue hidx =>
  split at h
  case isTrue => exact absurd h (by simp)
  case isFalse hguard =>
  split at h
  case h_1 => exact absurd h (by simp)
  case h_2 ex' heq =>
    rw [StepOut.cont.injEq] at h
    obtain ⟨rfl, rfl⟩ := h
    intro i hi
    simp only at hi ⊢
    by_cases hlt : i < s.idx
    · obtain ⟨hl, hm⟩ := hinv i hlt
      exact ⟨hl, stringHistMem_append_left _ hm⟩
    · have hieq : i = s.idx := by omega
      subst hieq
      exact ⟨hidx, stringHistMem_append_str _ _⟩
  case h_3 ex' heq =>
  split at h
  case h_1 => exact absurd h (by simp)
  case h_2 r hr =>
  split at h
  case isFalse =>
    exact absurd h (by simp)
  case isTrue hexec =>
  split at h
  case isFalse =>
    rw [StepOut.cont.injEq] at h
    obtain ⟨rfl, rfl⟩ := h
    intro i hi
    simp only at hi ⊢
    obtain ⟨hl, hm⟩ := hinv i hi
    exact ⟨hl, stringHistMem_append_left _
      (stringHistMem_append_left _ hm)⟩
  case isTrue =>
  split at h
  case h_3 => exact absurd h (by simp)
  case h_1 =>
    rw [StepOut.cont.injEq] at h
    obtain ⟨rfl, rfl⟩ := h
    intro i hi
    simp only at hi ⊢
    by_cases hlt : i < s.idx
    · obtain ⟨hl, hm⟩ := hinv i hlt
      exact ⟨hl, stringHistMem_append_left _
        (stringHistMem_append_left _ hm)⟩
    · have hieq : i = s.idx := by omega
      subst hieq
      exact ⟨hidx, stringHistMem_append_left _
        (stringHistMem_append_str _ _)⟩
  case h_2 c hc =>
  split at h
  case isFalse => exact absurd h (by simp)
  case isTrue hnew =>
    rw [StepOut.cont.injEq] at h
    obtain ⟨rfl, rfl⟩ := h
    intro i hi
    simp only at hi ⊢
    have hil : i < s.plan.length := by omega
    have hlen : (List.insertIdx (s.idx + 1) c s.plan).length =
        s.plan.length + 1 :=
      List.length_insertIdx _ _ (by omega)
    refine ⟨by omega, ?_⟩
    have hget : (List.insertIdx (s.idx + 1) c s.plan).get
        ⟨i, by omega⟩ = s.plan.get ⟨i, hil⟩ := by
      rw [List.get_eq_getElem, List.get_eq_getElem]
      exact List.getElem_insertIdx_of_lt s.plan c (s.idx + 1) i
        (by omega) hil
    rw [hget]
    by_cases hlt : i < s.idx
    · obtain ⟨hl, hm⟩ := hinv i hlt
      have : s.plan.get ⟨i, hil⟩ = s.plan.get ⟨i, hl⟩ := rfl
      rw [this]
      exact stringHistMem_append_left _
        (stringHistMem_append_left _ hm)
    · have hieq : i = s.idx := by omega
      subst hieq
      exact stringHistMem_append_left _
        (stringHistMem_append_str _ _)

theorem reaches_inv {isWindows : Bool} {s t : LoopState}
    (h : Reaches isWindows s t) (hinv : PlanInv s) : PlanInv t := by
  induction h with
  | refl s => exact hinv
  | step inp ex hstep htu ih => exact ih (step_cont_inv hstep hinv)

/-- C3: whenever the loop, started on any plan, reaches a state whose
cursor points at a command whose literal text already occurs at an
earlier plan position, the iteration stops immediately with the cycle
guard — the state is unchanged and no `run_command` call is made. -/
theorem duplicate_command_stops_loop (isWindows : Bool) (p : List Item)
    (s : LoopState) (hreach : Reaches isWindows (initState p) s)
    (i : Nat) (hij : i < s.idx) (hidx : s.idx < s.plan.length)
    (hdup : (s.plan.get ⟨i, Nat.lt_trans hij hidx⟩).value =
      (s.plan.get ⟨s.idx, hidx⟩).value) (inp : StepInput) :
    handle_llm_response_step isWindows s inp =
      StepOut.stopped StopReason.cycleDetected s [] := by
  have hinv : PlanInv s := reaches_inv hreach
    (by intro j hj; exact absurd hj (Nat.not_lt_zero j))
  obtain ⟨hl, hm⟩ := hinv i hij
  have hm' : stringHistMem s.hist ((s.plan.get ⟨s.idx, hidx⟩).value) =
      true := hdup ▸ hm
  simp only [List.get_eq_getElem] at hm'
  rw [handle_llm_response_step, dif_pos hidx]
  simp [hm']

end AeonFix

namespace AeonFix

/-- Witness for C3: running the plan `[sfc /scannow, sfc /scannow]` for
one confirmed, successful, `PROCEED`-ed step reaches cursor 1; there the
duplicate is detected and the loop stops without executing anything. -/
theorem duplicate_command_stops_loop_witness :
    handle_llm_response_step false
      ⟨[⟨ItemType.command, "sfc /scannow", "ctx", 4⟩,
        ⟨ItemType.command, "sfc /scannow", "ctx", 4⟩], 1,
       [HistEntry.str "sfc /scannow",
        HistEntry.record ⟨"sfc /scannow", true, true, true, "", "", some 0⟩]⟩
      ⟨true, LaunchResult.completed 0 none none, 0, true, true,
       LaunchResult.completed 0 none none, 0, some "PROCEED.", true⟩ =
      StepOut.stopped StopReason.cycleDetected
        ⟨[⟨ItemType.command, "sfc /scannow", "ctx", 4⟩,
          ⟨ItemType.command, "sfc /scannow", "ctx", 4⟩], 1,
         [HistEntry.str "sfc /scannow",
          HistEntry.record ⟨"sfc /scannow", true, true, true, "", "",
            some 0⟩]⟩ [] :=
  duplicate_command_stops_loop false
    [⟨ItemType.command, "sfc /scannow", "ctx", 4⟩,
     ⟨ItemType.command, "sfc /scannow", "ctx", 4⟩]
    ⟨[⟨ItemType.command, "sfc /scannow", "ctx", 4⟩,
      ⟨ItemType.command, "sfc /scannow", "ctx", 4⟩], 1,
     [HistEntry.str "sfc /scannow",
      HistEntry.record ⟨"sfc /scannow", true, true, true, "", "", some 0⟩]⟩
    (Reaches.step
      ⟨true, LaunchResult.completed 0 none none, 0, true, true,
       LaunchResult.completed 0 none none, 0, some "PROCEED.", true⟩
      [CmdArg.listArg ["sfc", "/scannow"]] (by decide)
      (Reaches.refl _))
    0 (by decide) (by decide) (by decide)
    ⟨true, LaunchResult.completed 0 none none, 0, true, true,
     LaunchResult.completed 0 none none, 0, some "PROCEED.", true⟩

/-- C4: at state `([A, B], cursor 0)` with `A` not yet attempted, when the
step executes and the consultation verdict is `SUGGEST_NEW` with command
`C`, user confirmation of `C` makes the plan `[A, C, B]` with the cursor
advanced onto `C` (the remainder `B` of the original plan preserved after
the inserted step), while a decline stops the loop. -/
theorem suggest_new_inserts_after_cursor (isWindows : Bool) (A B C : Item)
    (hist : List HistEntry) (inp : StepInput)
    (hnodup : stringHistMem hist A.value = false)
    (pex : List CmdArg)
    (hpre : precheck isWindows A.value inp = PrecheckOut.runStep pex)
    (r : RunResult) (hexec : mainExec isWindows A.value inp = some r)
    (hexecuted : r.executed = true)
    (hverdict : verdict_of isWindows inp.analysisResponse =
      VerdictAct.suggestNewV C) :
    (inp.runNew = true →
      handle_llm_response_step isWindows ⟨[A, B], 0, hist⟩ inp =
        StepOut.cont ⟨[A, C, B], 1,
          (hist ++ [HistEntry.str A.value]) ++
            [HistEntry.record (recordOf A.value r)]⟩
          (pex ++ [(shell_mode_of isWindows A.value).2])) ∧
    (inp.runNew = false →
      handle_llm_response_step isWindows ⟨[A, B], 0, hist⟩ inp =
        StepOut.stopped StopReason.userRejectedSuggestion ⟨[A, B], 0,
          (hist ++ [HistEntry.str A.value]) ++
            [HistEntry.record (recordOf A.value r)]⟩
          (pex ++ [(shell_mode_of isWindows A.value).2])) := by
  have hlast : (decide ((0 : Nat) = ([A, B] : List Item).length - 1)) =
      false := by simp
  have hstep : handle_llm_response_step isWindows ⟨[A, B], 0, hist⟩ inp =
      if inp.runNew then
        StepOut.cont ⟨[A, C, B], 1,
          (hist ++ [HistEntry.str A.value]) ++
            [HistEntry.record (recordOf A.value r)]⟩
          (pex ++ [(shell_mode_of isWindows A.value).2])
      else
        StepOut.stopped StopReason.userRejectedSuggestion ⟨[A, B], 0,
          (hist ++ [HistEntry.str A.value]) ++
            [HistEntry.record (recordOf A.value r)]⟩
          (pex ++ [(shell_mode_of isWindows A.value).2]) := by
    rw [handle_llm_response_step,
      dif_pos (show (0 : Nat) < ([A, B] : List Item).length by simp)]
    have hget : (([A, B] : List Item).get ⟨0, by simp⟩).value = A.value :=
      rfl
    rw [hget] at *
    simp only [hnodup, Bool.false_eq_true, if_false, hpre, hexec,
      hexecuted, if_true, hverdict, hlast, Bool.not_false, Bool.or_true,
      if_true]
    have hins : List.insertIdx 1 C [A, B] = [A, C, B] := rfl
    split <;> simp [hins]
  constructor
  · intro hnew
    rw [hstep, if_pos hnew]
  · intro hnew
    rw [hstep, if_neg (by rw [hnew]; exact Bool.false_ne_true)]

/-- Witness for C4: concrete run with `A = sfc /scannow`,
`B = dism /online`; the step fails with exit code 1, the engine answers
`SUGGEST_NEW` with `chkdsk C:`, the user confirms, and the plan becomes
`[sfc /scannow, chkdsk C:, dism /online]` with the cursor on the
insertion. -/
theorem suggest_new_inserts_after_cursor_witness :
    handle_llm_response_step false
      ⟨[⟨ItemType.command, "sfc /scannow", "ctx", 4⟩,
        ⟨ItemType.command, "dism /online", "ctx2", 30⟩], 0, []⟩
      ⟨true, LaunchResult.completed 0 none none, 0, true, true,
       LaunchResult.completed 1 none none, 0,
       some "SUGGEST_NEW. Try this. [[*** chkdsk C: ***]]", true⟩ =
      StepOut.cont
        ⟨[⟨ItemType.command, "sfc /scannow", "ctx", 4⟩,
          ⟨ItemType.command, "chkdsk C:", "Try this.", 23⟩,
          ⟨ItemType.command, "dism /online", "ctx2", 30⟩], 1,
         ([] ++ [HistEntry.str "sfc /scannow"]) ++
           [HistEntry.record ⟨"sfc /scannow", true, true, false, "", "",
             some 1⟩]⟩
        ([] ++ [CmdArg.listArg ["sfc", "/scannow"]]) :=
  (suggest_new_inserts_after_cursor false
    ⟨ItemType.command, "sfc /scannow", "ctx", 4⟩
    ⟨ItemType.command, "dism /online", "ctx2", 30⟩
    ⟨ItemType.command, "chkdsk C:", "Try this.", 23⟩
    []
    ⟨true, LaunchResult.completed 0 none none, 0, true, true,
     LaunchResult.completed 1 none none, 0,
     some "SUGGEST_NEW. Try this. [[*** chkdsk C: ***]]", true⟩
    (by decide) [] (by decide)
    ⟨"sfc /scannow", false, false, "", "", some 1, true, true, 0, none⟩
    (by decide) (by decide) (by decide)).1 rfl

end AeonFix
